import Mathlib

/-!
A shallow embedding of the node-restify-warden parameter-validation engine
(lib/validate.js, lib/validators.js, lib/errors.js, lib/constants.js,
lib/common.js) and proofs about it.

Modelling conventions:
* JavaScript values are modelled by the inductive type JSVal; plain objects
  are association lists of own enumerable string keys in insertion order.
* JavaScript numbers are modelled by JSNum: either NaN or an exact rational.
  (Infinity and floating-point rounding never arise in the code paths the
  theorems talk about.)
* The callback style of the source is modelled by pure functions that return
  the single callback invocation each control path performs.  Field
  validators are total Lean functions from (context, field name, raw value)
  to the triple of callback arguments (err, validated, multi); this encodes
  the documented contract that a validator calls back exactly once.
* vasync.forEachParallel dispatches its tasks in list order and every stock
  validator completes synchronously, so the task fan-out is modelled as a
  left fold over the task list.
-/

namespace RestifyWarden

/-- The value of the field property of an error object: the source puts
either a string (invalidParam, missingParam) or an array of strings
(unknownParams) there. -/
inductive FieldV where
  | str (s : String)
  | arr (ss : List String)
deriving DecidableEq

/-- JavaScript relational comparison coerces an array to its default string
form, which joins the elements with commas; this is the key under which the
comparator in errResult (validate.js line 45) compares field values. -/
def FieldV.key : FieldV → String
  | .str s => s
  | .arr ss => String.intercalate "," ss

/-- An error object accumulated by the engine.  Absent properties are
modelled by none: errResult branches on hasOwnProperty of field and code. -/
structure ErrObj where
  field : Option FieldV := none
  code : Option String := none
  message : Option String := none
  invalid : Option (List String) := none
deriving DecidableEq

/- Messages from lib/constants.js. -/
namespace msg

def INVALID_PARAMS : String := "Invalid parameters"

def ARRAY_OF_STR : String := "must be an array of strings"

def STR : String := "must be a string"

def UNKNOWN_PARAMS : String := "Unknown parameters"

def PARAMETERS_ARE_OBJECTS : String := "Parameters must be objects"

def OFFSET : String :=
  "invalid value, offset must be an integer greater than or equal to 0"

def LIMIT : String :=
  "invalid limit, must be an integer greater than 0 or less than or equal to 1000"

end msg

/-- errors.invalidParam from lib/errors.js. -/
def invalidParam (field : String) (message : String) : ErrObj :=
  { field := some (FieldV.str field), code := some "InvalidParameter",
    message := some message }

/-- errors.missingParam from lib/errors.js (default message). -/
def missingParam (field : String) : ErrObj :=
  { field := some (FieldV.str field), code := some "MissingParameter",
    message := some "Missing parameter" }

/-- errors.unknownParams from lib/errors.js (default message). -/
def unknownParams (params : List String) : ErrObj :=
  { field := some (FieldV.arr params), code := some "UnknownParameters",
    message := some (msg.UNKNOWN_PARAMS ++ ": " ++ String.intercalate ", " params) }

/-- Sort key of an error object inside errResult: all errors reaching the
sort have a field property, so the default is never consulted there. -/
def fkey (e : ErrObj) : String := (e.field.map FieldV.key).getD ""

/-- Lexicographic comparison of character lists by code, the order behind
the JavaScript string relational operators. -/
def charListLt : List Char → List Char → Bool
  | _, [] => false
  | [], _ :: _ => true
  | c :: cs, d :: ds =>
    if c.toNat < d.toNat then true
    else if d.toNat < c.toNat then false
    else charListLt cs ds

/-- The JavaScript string less-than; a.field greater-than b.field in the
errResult comparator is jsStrLt of the keys in the other order. -/
def jsStrLt (a b : String) : Bool := charListLt a.data b.data

/-- One step of the insertion sort modelling sortedErrs in errResult
(validate.js line 45).  The comparator (a, b) => a.field > b.field ? 1 : -1
orders by the coerced field key; among equal keys the source order is
implementation defined (the comparator never returns 0), and the model pins
the stable order. -/
def insertByField (e : ErrObj) : List ErrObj → List ErrObj
  | [] => [e]
  | x :: xs =>
    if jsStrLt (fkey e) (fkey x) then e :: x :: xs
    else x :: insertByField e xs

/-- The sort of field errors performed in errResult (validate.js line 45). -/
def sortByField (l : List ErrObj) : List ErrObj :=
  l.foldl (fun acc e => insertByField e acc) []

/-- JavaScript numbers, restricted to NaN and exact rationals. -/
inductive JSNum where
  | nan
  | val (q : ℚ)
deriving DecidableEq

/-- JavaScript values as far as the engine inspects them. -/
inductive JSVal where
  | vnull
  | vundef
  | vbool (b : Bool)
  | vnum (n : JSNum)
  | vstr (s : String)
  | varr (elems : List JSVal)
  | vobj (fields : List (String × JSVal))

/-- The validated-params object built by one validation pass. -/
def ValidatedMap := List (String × JSVal)

/-- The argument restify.InternalError is given in errResult: the single
real error when there is one, a verror.MultiError of all of them otherwise
(validate.js lines 47-53). -/
inductive InternalWrap where
  | single (e : ErrObj)
  | multi (es : List ErrObj)
deriving DecidableEq

/-- The error delivered to the callback on failure: either the internal
error of validate.js line 48 or the InvalidParamsError of line 55. -/
inductive FailObj where
  | internalErr (w : InternalWrap)
  | invalidParams (message : String) (errors : List ErrObj)
deriving DecidableEq

/-- One callback invocation: the (err, validated) argument pair.  A source
site callback(e) leaves validated undefined; callback(null, v) passes a null
error. -/
structure CbCall where
  err : Option FailObj
  validated : Option ValidatedMap

/-- errResult from validate.js lines 29-62: classifies the accumulated
error list and produces the single callback invocation. -/
def errResult (errs : List ErrObj) (validated : ValidatedMap) : CbCall :=
  if errs = [] then { err := none, validated := some validated }
  else
    let realErrs := errs.filter (fun e => e.field.isNone)
    let sortedErrs := sortByField (errs.filter (fun e => !e.field.isNone))
    let invalid := (errs.filter (fun e => !e.field.isNone)).any
      (fun e => e.code.any (fun c => decide (c ≠ "MissingParameter")))
    if realErrs ≠ [] then
      { err := some (FailObj.internalErr
          (match realErrs with
            | [e] => InternalWrap.single e
            | es => InternalWrap.multi es)),
        validated := none }
    else
      { err := some (FailObj.invalidParams
          (if invalid then msg.INVALID_PARAMS else "Missing parameters")
          sortedErrs),
        validated := none }

/-- JavaScript truthiness of the values in the model. -/
def jsTruthy : JSVal → Bool
  | .vnull => false
  | .vundef => false
  | .vbool b => b
  | .vnum JSNum.nan => false
  | .vnum (JSNum.val q) => decide (q ≠ 0)
  | .vstr s => decide (s ≠ "")
  | .varr _ => true
  | .vobj _ => true

/-- The typeof operator on the values in the model. -/
def jsTypeof : JSVal → String
  | .vnull => "object"
  | .vundef => "undefined"
  | .vbool _ => "boolean"
  | .vnum _ => "number"
  | .vstr _ => "string"
  | .varr _ => "object"
  | .vobj _ => "object"

/-- Array.isArray. -/
def jsIsArray : JSVal → Bool
  | .varr _ => true
  | _ => false

/-- The structural guard of validateParams (validate.js line 126):
(not params) or typeof params is not object or Array.isArray(params). -/
def paramsRejected (params : JSVal) : Bool :=
  !jsTruthy params || jsTypeof params ≠ "object" || jsIsArray params

/-- Own enumerable properties of an object value, in insertion order. -/
def objFields : JSVal → List (String × JSVal)
  | .vobj fs => fs
  | _ => []

/-- hasOwnProperty on an association list. -/
def hasOwn {β : Type} (l : List (String × β)) (k : String) : Bool :=
  l.any (fun p => p.1 = k)

/-- Property read on an association list. -/
def objGet (l : List (String × JSVal)) (k : String) : Option JSVal :=
  (l.find? (fun p => p.1 = k)).map Prod.snd

/-- Property assignment on an object: an existing key keeps its position
and gets the new value, a new key is appended. -/
def objSet (l : List (String × JSVal)) (k : String) (v : JSVal) :
    List (String × JSVal) :=
  if hasOwn l k then l.map (fun p => if p.1 = k then (k, v) else p)
  else l ++ [(k, v)]

/-- The triple of arguments a field validator passes to its callback
(validate.js line 173): an error (or null), a validated value (possibly
undefined), and a multi object (undefined or an object; any other value is
ignored by the engine, which the model folds into none). -/
structure VRes where
  err : Option ErrObj := none
  value : Option JSVal := none
  multi : Option (List (String × JSVal)) := none

/-- A field validator: the context argument is an opaque pass-through, so
the model is polymorphic in its type. -/
def Validator (α : Type) := α → String → JSVal → VRes

/-- An entry of the toValidate list (validate.js lines 141-145). -/
structure Task (α : Type) where
  field : String
  fn : Validator α
  val : JSVal

/-- What an after function passes as its callback error (validate.js lines
221-228): nothing, one error object, or an array of error objects. -/
inductive AfterErr where
  | one (e : ErrObj)
  | many (es : List ErrObj)

/-- A cross-field (after) validation function. -/
def CrossValidator (α : Type) := α → JSVal → ValidatedMap → Option AfterErr

/-- The after member of a schema: the source accepts a single function or
an array of functions. -/
inductive AfterVal (α : Type) where
  | single (f : CrossValidator α)
  | list (fs : List (CrossValidator α))

/-- The opts object of validateParams.  An absent required or optional map
behaves exactly like an empty one in the source, so both are modelled by
the empty list; an absent strict flag behaves like false. -/
structure Schema (α : Type) where
  strict : Bool := false
  required : List (String × Validator α) := []
  optional : List (String × Validator α) := []
  after : Option (AfterVal α) := none

/-- Events recording which stages of one validation pass actually ran. -/
inductive TraceEv where
  | fieldCheck (name : String)
  | unknownsCheck
  | afterCheck
deriving DecidableEq

/-- The mutable state shared by the task callbacks of one pass: the errs
and validatedParams accumulators of validateParams (lines 116-118), plus
the model trace. -/
structure TaskState where
  errs : List ErrObj
  validatedParams : ValidatedMap
  trace : List TraceEv

/-- The required-field loop of validateParams (lines 135-150): a task for
each required field present in params, a MissingParameter error for each
absent one, both in declaration order. -/
def requiredPass {α : Type} (required : List (String × Validator α))
    (params : List (String × JSVal)) : List (Task α) × List ErrObj :=
  required.foldl
    (fun acc p =>
      if hasOwn params p.1 then
        (acc.1 ++ [⟨p.1, p.2, (objGet params p.1).getD JSVal.vundef⟩], acc.2)
      else
        (acc.1, acc.2 ++ [missingParam p.1]))
    ([], [])

/-- The optional-field loop of validateParams (lines 152-163). -/
def optionalPass {α : Type} (optional : List (String × Validator α))
    (params : List (String × JSVal)) : List (Task α) :=
  optional.foldl
    (fun acc p =>
      if hasOwn params p.1 then
        acc ++ [⟨p.1, p.2, (objGet params p.1).getD JSVal.vundef⟩]
      else acc)
    []

/-- The per-task callback _callValidateFn of validateParams (lines
167-191): push the error if there is one, store the validated value if it
is not undefined, merge the multi object if there is one.  Note that the
value and multi stores happen whether or not an error was reported. -/
def _callValidateFn {α : Type} (arg : α) (st : TaskState) (t : Task α) :
    TaskState :=
  let r := t.fn arg t.field t.val
  let errs1 := match r.err with
    | some e => st.errs ++ [e]
    | none => st.errs
  let vp1 := match r.value with
    | some v => objSet st.validatedParams t.field v
    | none => st.validatedParams
  let vp2 := match r.multi with
    | some m => m.foldl (fun acc kv => objSet acc kv.1 kv.2) vp1
    | none => vp1
  { errs := errs1, validatedParams := vp2,
    trace := st.trace ++ [TraceEv.fieldCheck t.field] }

/-- vasync.forEachParallel over the toValidate list (line 165), with tasks
completing in dispatch order (every stock validator is synchronous). -/
def runTasks {α : Type} (arg : α) (ts : List (Task α)) (st : TaskState) :
    TaskState :=
  ts.foldl (_callValidateFn arg) st

/-- validateUnknowns from validate.js lines 75-96. -/
def validateUnknowns {α : Type} (params : List (String × JSVal))
    (req opt : List (String × Validator α)) : Option ErrObj :=
  let unknowns := params.foldl
    (fun acc p =>
      if hasOwn req p.1 || hasOwn opt p.1 then acc else acc ++ [p.1])
    []
  if unknowns = [] then none else some (unknownParams unknowns)

/-- crossValidate from validate.js lines 217-235: run the after functions
in order, collecting their errors (an array result is concatenated, a
single error pushed), then classify through errResult. -/
def crossValidate {α : Type} (errs : List ErrObj) (arg : α) (raw : JSVal)
    (validated : ValidatedMap) (afterFuncs : List (CrossValidator α)) :
    CbCall :=
  errResult
    (afterFuncs.foldl
      (fun acc func =>
        match func arg raw validated with
        | none => acc
        | some (AfterErr.one e) => acc ++ [e]
        | some (AfterErr.many es) => acc ++ es)
      errs)
    validated

/-- The observable effects of one validateParams call: the callback
invocations it performs, the opts and params objects as they stand after
the call (the source mutates opts.after at line 203 and nothing else), and
the trace of stages that ran. -/
structure EngineRun (α : Type) where
  calls : List CbCall
  finalOpts : Schema α
  finalParams : JSVal
  trace : List TraceEv

/-- The toValidate list of validateParams (lines 133-163): required tasks
first, optional tasks after them. -/
def toValidateList {α : Type} (opts : Schema α) (params : JSVal) :
    List (Task α) :=
  (requiredPass opts.required (objFields params)).1 ++
    optionalPass opts.optional (objFields params)

/-- The accumulator state once all tasks of a pass have completed: the
missing-parameter errors are pushed during the required loop, before any
task runs. -/
def passState {α : Type} (opts : Schema α) (arg : α) (params : JSVal) :
    TaskState :=
  runTasks arg (toValidateList opts params)
    ⟨(requiredPass opts.required (objFields params)).2, [], []⟩

/-- The error list as it stands at validate.js line 201, after the tasks
and the strict unknown-parameter check. -/
def collectedErrs {α : Type} (opts : Schema α) (arg : α) (params : JSVal) :
    List ErrObj :=
  (passState opts arg params).errs ++
    (if opts.strict then
      (validateUnknowns (objFields params) opts.required opts.optional).toList
     else [])

/-- validateParams from validate.js lines 115-210. -/
def validateParams {α : Type} (opts : Schema α) (arg : α) (params : JSVal) :
    EngineRun α :=
  if paramsRejected params then
    { calls := [errResult [invalidParam "parameters" msg.PARAMETERS_ARE_OBJECTS] []],
      finalOpts := opts, finalParams := params, trace := [] }
  else
    let st := passState opts arg params
    let errs2 := collectedErrs opts arg params
    let trace1 := st.trace ++
      (if opts.strict then [TraceEv.unknownsCheck] else [])
    match opts.after with
    | some av =>
      if errs2 = [] then
        let afterList := match av with
          | AfterVal.single f => [f]
          | AfterVal.list fs => fs
        let optsAfter := match av with
          | AfterVal.single f => { opts with after := some (AfterVal.list [f]) }
          | AfterVal.list _ => opts
        { calls := [crossValidate errs2 arg params st.validatedParams afterList],
          finalOpts := optsAfter, finalParams := params,
          trace := trace1 ++ afterList.map (fun _ => TraceEv.afterCheck) }
      else
        { calls := [errResult errs2 st.validatedParams],
          finalOpts := opts, finalParams := params, trace := trace1 }
    | none =>
      { calls := [errResult errs2 st.validatedParams],
        finalOpts := opts, finalParams := params, trace := trace1 }

/- Constants from lib/constants.js used by the stock validators. -/

def MAX_LIMIT : ℚ := 1000

def MIN_LIMIT : ℚ := 1

def MIN_OFFSET : ℚ := 0

/-- Numeric value of a list of decimal digits. -/
def natOfDigits (cs : List Char) : ℕ :=
  cs.foldl (fun n c => 10 * n + (c.toNat - 48)) 0

/-- Split a character list on a separator character, the JavaScript
split with a one-character separator. -/
def splitOnChar (sep : Char) : List Char → List (List Char)
  | [] => [[]]
  | c :: cs =>
    if c = sep then [] :: splitOnChar sep cs
    else
      match splitOnChar sep cs with
      | [] => [[c]]
      | r :: rs => (c :: r) :: rs

/-- A decimal octet as accepted by the IPv4 branch of net.isIP in Node:
one to three digits, no leading zero, value at most 255. -/
def isDecOctet (cs : List Char) : Bool :=
  decide (cs ≠ []) && cs.all Char.isDigit &&
    (match cs with
      | [_] => true
      | '0' :: _ => false
      | _ => true) &&
    decide (natOfDigits cs ≤ 255)

/-- net.isIPv4: four decimal octets joined by dots. -/
def net_isIPv4 (cs : List Char) : Bool :=
  let parts := splitOnChar '.' cs
  decide (parts.length = 4) && parts.all isDecOctet

/-- A 16-bit group of an IPv6 address: one to four hex digits. -/
def isHexGroup (cs : List Char) : Bool :=
  decide (cs ≠ []) && decide (cs.length ≤ 4) &&
    cs.all (fun c => c.isDigit ||
      (decide ('a' ≤ c) && decide (c ≤ 'f')) ||
      (decide ('A' ≤ c) && decide (c ≤ 'F')))

/-- Split at the first double colon, when there is one: the pieces before
and after it. -/
def findDoubleColon : List Char → Option (List Char × List Char)
  | ':' :: ':' :: rest => some ([], rest)
  | c :: rest =>
    match findDoubleColon rest with
    | some p => some (c :: p.1, p.2)
    | none => none
  | [] => none

/-- net.isIPv6: an uncompressed address of eight groups (the last 32 bits
may be written as an embedded IPv4 address), or a single double-colon
compression with at most seven groups around it. -/
def net_isIPv6 (cs : List Char) : Bool :=
  match findDoubleColon cs with
  | none =>
    let parts := splitOnChar ':' cs
    if parts.any (fun p => p = []) then false
    else
      match parts.getLast? with
      | none => false
      | some lastPart =>
        if net_isIPv4 lastPart then
          decide (parts.length = 7) && parts.dropLast.all isHexGroup
        else
          decide (parts.length = 8) && parts.all isHexGroup
  | some (l, r) =>
    if (findDoubleColon r).isSome then false
    else
      let lparts := if l = [] then [] else splitOnChar ':' l
      let rparts := if r = [] then [] else splitOnChar ':' r
      if lparts.any (fun p => p = []) || rparts.any (fun p => p = []) then false
      else
        let rv4 := match rparts.getLast? with
          | some lastPart => net_isIPv4 lastPart
          | none => false
        let rOk := if rv4 then rparts.dropLast.all isHexGroup
          else rparts.all isHexGroup
        lparts.all isHexGroup && rOk &&
          decide (lparts.length + rparts.length + (if rv4 then 1 else 0) ≤ 7)

/-- net.isIP from the Node standard library: 4 for an IPv4 literal, 6 for
an IPv6 literal, 0 otherwise. -/
def net_isIP (s : String) : ℕ :=
  if net_isIPv4 s.data then 4 else if net_isIPv6 s.data then 6 else 0

/-- net.isIP applied to an arbitrary value: non-strings are never IPs. -/
def net_isIPVal : JSVal → ℕ
  | .vstr s => net_isIP s
  | _ => 0

/-- _validateIP from validators.js lines 90-96: true means invalid. -/
def _validateIP (addr : JSVal) : Bool :=
  if net_isIPVal addr ≠ 0 then false else true

/-- validateIP from validators.js lines 101-108, as an engine validator. -/
def validateIP {α : Type} : Validator α := fun _ name addr =>
  if _validateIP addr then
    { err := some (invalidParam name "invalid IP address") }
  else { value := some addr }

/-- The domain of validateIParray after its guard (validators.js line 53):
an array of strings or a string.  An array containing a non-string element
makes the source throw on String.prototype.replace, which is outside the
model. -/
inductive ArrOrStr where
  | ofArr (xs : List String)
  | ofStr (s : String)

/-- arrayify from lib/common.js, specialised to the array-or-string domain
its callers in validators.js guarantee: an array is returned as is, the
empty string becomes the empty array, any other string is split on commas. -/
def arrayify : ArrOrStr → List String
  | .ofArr xs => xs
  | .ofStr s =>
    if s = "" then [] else (splitOnChar ',' s.data).map String.mk

/-- Remove the first run of whitespace, as the non-global regex replace on
validators.js line 67 does. -/
def stripFirstWsAux : List Char → List Char
  | [] => []
  | c :: cs =>
    if c.isWhitespace then cs.dropWhile Char.isWhitespace
    else c :: stripFirstWsAux cs

/-- String form of stripFirstWsAux. -/
def stripFirstWs (s : String) : String := String.mk (stripFirstWsAux s.data)

/-- Insertion step of the default JavaScript array sort on strings. -/
def insertStr (s : String) : List String → List String
  | [] => [s]
  | x :: xs => if jsStrLt s x then s :: x :: xs else x :: insertStr s xs

/-- The default sort() applied to the invalid lists in validators.js. -/
def sortStrings (l : List String) : List String :=
  l.foldl (fun acc s => insertStr s acc) []

/-- validateIParray from validators.js lines 49-87.  The success value is
the ips list, to which the source pushes the return value of net.isIP for
each entry; the failure carries the invalid entries, sorted. -/
def validateIParray (name : String) (arr : ArrOrStr) :
    Except ErrObj (List ℕ) :=
  let ip_array := arrayify arr
  let results := ip_array.map (fun i =>
    let ip := stripFirstWs i
    (ip, net_isIP ip))
  let errs : List String :=
    if ip_array = [] then ["Empty string"]
    else (results.filter (fun p => p.2 = 0)).map Prod.fst
  let ips : List ℕ := (results.filter (fun p => p.2 ≠ 0)).map Prod.snd
  if errs ≠ [] then
    Except.error
      { invalidParam name
          (if errs.length = 1 then "invalid IP" else "invalid IPs") with
        invalid := some (sortStrings errs) }
  else Except.ok ips

/- The Number conversion used by validateOffset and validateLimit.  The
model covers decimal literals with optional sign, fraction and exponent;
the hexadecimal, octal, binary and Infinity forms of the conversion never
appear in the claims and map to NaN here.  Rationals are built with mkRat
from natural numerators and denominators so that every value reduces. -/

/-- Remove leading and trailing whitespace, the JavaScript trim. -/
def trimWs (cs : List Char) : List Char :=
  ((cs.dropWhile Char.isWhitespace).reverse.dropWhile Char.isWhitespace).reverse

/-- String form of trimWs. -/
def jsTrim (s : String) : String := String.mk (trimWs s.data)

/-- Parse the mantissa of a decimal literal (digits, digits dot digits,
digits dot, or dot digits) as a numerator-denominator pair. -/
def parseMantissa (cs : List Char) : Option (ℕ × ℕ) :=
  let intPart := cs.takeWhile Char.isDigit
  let rest := cs.dropWhile Char.isDigit
  match rest with
  | [] => if intPart = [] then none else some (natOfDigits intPart, 1)
  | '.' :: frac =>
    if frac.all Char.isDigit && (decide (intPart ≠ []) || decide (frac ≠ [])) then
      some (natOfDigits intPart * 10 ^ frac.length + natOfDigits frac,
        10 ^ frac.length)
    else none
  | _ => none

/-- Strip an optional sign; true means negative. -/
def splitSign : List Char → Bool × List Char
  | c :: cs =>
    if c = '-' then (true, cs)
    else if c = '+' then (false, cs)
    else (false, c :: cs)
  | [] => (false, [])

/-- Parse a signed decimal exponent as a sign and a magnitude. -/
def parseExp (cs : List Char) : Option (Bool × ℕ) :=
  let (neg, body) := splitSign cs
  if decide (body ≠ []) && body.all Char.isDigit then
    some (neg, natOfDigits body)
  else none

/-- Parse an unsigned decimal literal with optional exponent as a
numerator-denominator pair. -/
def parseDecimal (cs : List Char) : Option (ℕ × ℕ) :=
  let mant := cs.takeWhile (fun c => c ≠ 'e' && c ≠ 'E')
  let rest := cs.dropWhile (fun c => c ≠ 'e' && c ≠ 'E')
  match rest with
  | [] => parseMantissa mant
  | _ :: ecs =>
    match parseMantissa mant, parseExp ecs with
    | some (n, d), some (eneg, emag) =>
      some (if eneg then (n, d * 10 ^ emag) else (n * 10 ^ emag, d))
    | _, _ => none

/-- Number(s) for a string: trim, empty means zero, otherwise a signed
decimal literal, and NaN for everything else the model covers. -/
def jsParseNumber (s : String) : JSNum :=
  let t := trimWs s.data
  if t = [] then JSNum.val 0
  else
    let (neg, body) := splitSign t
    match parseDecimal body with
    | some (n, d) =>
      JSNum.val (mkRat (if neg then -(Int.ofNat n) else Int.ofNat n) d)
    | none => JSNum.nan

/-- The number-or-string domain of validateOffset and validateLimit; any
other value makes assert.string inside isNotInteger throw, which is
outside the model. -/
inductive NumOrStr where
  | num (n : JSNum)
  | str (s : String)

/-- Number(val) for the offset and limit inputs. -/
def jsNumber : NumOrStr → JSNum
  | .num n => n
  | .str s => jsParseNumber s

/-- isNaN. -/
def jsIsNaN : JSNum → Bool
  | JSNum.nan => true
  | JSNum.val _ => false

/-- Math.floor, NaN propagating; the floor of an exact rational is the
floor-division of its numerator by its denominator. -/
def jsFloor : JSNum → JSNum
  | JSNum.nan => JSNum.nan
  | JSNum.val q => JSNum.val (mkRat (Int.fdiv q.num (Int.ofNat q.den)) 1)

/-- Numeric less-than: false whenever NaN is involved. -/
def jsLt : JSNum → JSNum → Bool
  | JSNum.val a, JSNum.val b => Rat.blt a b
  | _, _ => false

/-- isNotInteger from validators.js lines 335-339, for a string val and its
Number conversion id. -/
def isNotInteger (val : String) (id : JSNum) : Bool :=
  decide (val = "") || decide (jsTrim val ≠ val) || jsIsNaN id ||
    decide (jsFloor id ≠ id)

/-- validateOffset from validators.js lines 345-362.  The integral check
runs only when the value is not already a number. -/
def validateOffset (name : String) (val : NumOrStr) : Except ErrObj JSNum :=
  let id := jsNumber val
  if (match val with
      | NumOrStr.num _ => false
      | NumOrStr.str s => isNotInteger s id) then
    Except.error (invalidParam name msg.OFFSET)
  else if jsIsNaN id || jsLt id (JSNum.val MIN_OFFSET) then
    Except.error (invalidParam name msg.OFFSET)
  else Except.ok id

/-- validateLimit from validators.js lines 369-386. -/
def validateLimit (name : String) (val : NumOrStr) : Except ErrObj JSNum :=
  let id := jsNumber val
  if (match val with
      | NumOrStr.num _ => false
      | NumOrStr.str s => isNotInteger s id) then
    Except.error (invalidParam name msg.LIMIT)
  else if jsIsNaN id || jsLt id (JSNum.val MIN_LIMIT) ||
      jsLt (JSNum.val MAX_LIMIT) id then
    Except.error (invalidParam name msg.LIMIT)
  else Except.ok id

/-- A validator that reports an error and also supplies a transformed
value, exercising the value-alongside-error path of _callValidateFn. -/
def errValueValidator : Validator Unit := fun _ name _ =>
  { err := some (invalidParam name "bad"),
    value := some (JSVal.vstr "transformed") }

/-- A one-required-field schema using errValueValidator. -/
def errValueSchema : Schema Unit :=
  { required := [("x", errValueValidator)] }

/-- A cross-field function that reports nothing. -/
def noopAfterFn : CrossValidator Unit := fun _ _ _ => none

/-- A schema whose after member is a single function, not an array. -/
def singleAfterSchema : Schema Unit :=
  { after := some (AfterVal.single noopAfterFn) }

/-- The ordering the callback list of errResult is sorted by: a at most b
when the JavaScript comparison does not put the key of b below the key of
a. -/
def fieldLE (a b : ErrObj) : Prop := jsStrLt (fkey b) (fkey a) = false

/- ================================================================
   Theorems
   ================================================================ -/

theorem charListLt_asymm :
    ∀ a b : List Char, charListLt a b = true → charListLt b a = false := by
  intro a
  induction a with
  | nil =>
    intro b hab
    cases b with
    | nil => exact absurd hab (by simp [charListLt])
    | cons d ds => simp [charListLt]
  | cons c cs ih =>
    intro b hab
    cases b with
    | nil => exact absurd hab (by simp [charListLt])
    | cons d ds =>
      simp only [charListLt] at hab ⊢
      by_cases h1 : c.toNat < d.toNat
      · rw [if_neg (by omega), if_pos h1]
      · rw [if_neg h1] at hab
        by_cases h2 : d.toNat < c.toNat
        · rw [if_pos h2] at hab
          exact absurd hab (by simp)
        · rw [if_neg h2] at hab
          rw [if_neg h2, if_neg h1]
          exact ih ds hab

theorem charListLt_trans :
    ∀ a b c : List Char, charListLt a b = true → charListLt b c = true →
      charListLt a c = true := by
  intro a
  induction a with
  | nil =>
    intro b c hab hbc
    cases c with
    | nil =>
      cases b with
      | nil => exact absurd hab (by simp [charListLt])
      | cons y ys => exact absurd hbc (by simp [charListLt])
    | cons z zs => simp [charListLt]
  | cons x xs ih =>
    intro b c hab hbc
    cases b with
    | nil => exact absurd hab (by simp [charListLt])
    | cons y ys =>
      cases c with
      | nil => exact absurd hbc (by simp [charListLt])
      | cons z zs =>
        simp only [charListLt] at hab hbc ⊢
        by_cases h1 : x.toNat < y.toNat
        · by_cases h2 : y.toNat < z.toNat
          · rw [if_pos (by omega)]
          · rw [if_neg h2] at hbc
            by_cases h3 : z.toNat < y.toNat
            · rw [if_pos h3] at hbc
              exact absurd hbc (by simp)
            · rw [if_pos (by omega)]
        · rw [if_neg h1] at hab
          by_cases h4 : y.toNat < x.toNat
          · rw [if_pos h4] at hab
            exact absurd hab (by simp)
          · rw [if_neg h4] at hab
            by_cases h2 : y.toNat < z.toNat
            · rw [if_pos (by omega)]
            · rw [if_neg h2] at hbc
              by_cases h3 : z.toNat < y.toNat
              · rw [if_pos h3] at hbc
                exact absurd hbc (by simp)
              · rw [if_neg h3] at hbc
                rw [if_neg (by omega), if_neg (by omega)]
                exact ih ys zs hab hbc

theorem jsStrLt_asymm {a b : String} (h : jsStrLt a b = true) :
    jsStrLt b a = false :=
  charListLt_asymm a.data b.data h

theorem jsStrLt_trans {a b c : String} (hab : jsStrLt a b = true)
    (hbc : jsStrLt b c = true) : jsStrLt a c = true :=
  charListLt_trans a.data b.data c.data hab hbc

theorem mem_insertByField {e b : ErrObj} {l : List ErrObj} :
    b ∈ insertByField e l ↔ b = e ∨ b ∈ l := by
  induction l with
  | nil => simp [insertByField]
  | cons x xs ih =>
    simp only [insertByField]
    split
    · simp [List.mem_cons]
    · simp only [List.mem_cons, ih]
      tauto

theorem sorted_insertByField {e : ErrObj} {l : List ErrObj}
    (h : l.Sorted fieldLE) : (insertByField e l).Sorted fieldLE := by
  induction l with
  | nil => simp [insertByField]
  | cons x xs ih =>
    rw [List.sorted_cons] at h
    obtain ⟨hx, hxs⟩ := h
    simp only [insertByField]
    split
    · rename_i hlt
      rw [List.sorted_cons]
      refine ⟨?_, List.sorted_cons.mpr ⟨hx, hxs⟩⟩
      intro b hb
      rcases List.mem_cons.mp hb with rfl | hb
      · exact jsStrLt_asymm hlt
      · show jsStrLt (fkey b) (fkey e) = false
        by_contra hbe
        rw [Bool.not_eq_false] at hbe
        have hbx : jsStrLt (fkey b) (fkey x) = true := jsStrLt_trans hbe hlt
        have hxb : jsStrLt (fkey b) (fkey x) = false := hx b hb
        rw [hxb] at hbx
        exact Bool.noConfusion hbx
    · rename_i hge
      rw [List.sorted_cons]
      refine ⟨?_, ih hxs⟩
      intro b hb
      rcases mem_insertByField.mp hb with rfl | hb
      · exact Bool.of_not_eq_true hge
      · exact hx b hb

theorem sorted_foldl_insert (l acc : List ErrObj) (h : acc.Sorted fieldLE) :
    (l.foldl (fun acc e => insertByField e acc) acc).Sorted fieldLE := by
  induction l generalizing acc with
  | nil => exact h
  | cons x xs ih => exact ih _ (sorted_insertByField h)

theorem sorted_sortByField (l : List ErrObj) :
    (sortByField l).Sorted fieldLE :=
  sorted_foldl_insert l [] (by simp)

theorem errResult_shape (errs : List ErrObj) (v : ValidatedMap) :
    ((errResult errs v).err = none ∧
      (errResult errs v).validated = some v) ∨
    (∃ e, (errResult errs v).err = some e ∧
      (errResult errs v).validated = none) := by
  unfold errResult
  split
  · exact Or.inl ⟨rfl, rfl⟩
  · dsimp only
    split
    · exact Or.inr ⟨_, rfl, rfl⟩
    · exact Or.inr ⟨_, rfl, rfl⟩

theorem errResult_nonempty_fail (errs : List ErrObj) (v : ValidatedMap)
    (h : errs ≠ []) :
    ∃ e, errResult errs v = { err := some e, validated := none } := by
  unfold errResult
  rw [if_neg h]
  dsimp only
  split
  · exact ⟨_, rfl⟩
  · exact ⟨_, rfl⟩

theorem errResult_invalidParams_list (errs : List ErrObj) (v : ValidatedMap)
    (m : String) (es : List ErrObj)
    (h : (errResult errs v).err = some (FailObj.invalidParams m es)) :
    es = sortByField (errs.filter (fun e => !e.field.isNone)) := by
  unfold errResult at h
  split at h
  · exact absurd h (by simp)
  · dsimp only at h
    split at h
    · simp only [Option.some.injEq] at h
      exact absurd h (by simp)
    · simp only [Option.some.injEq, FailObj.invalidParams.injEq] at h
      exact h.2.symm

theorem validateParams_calls {α : Type} (opts : Schema α) (arg : α)
    (params : JSVal) :
    ∃ E V, (validateParams opts arg params).calls = [errResult E V] := by
  unfold validateParams
  split
  · exact ⟨_, _, rfl⟩
  · cases h : opts.after with
    | none => exact ⟨_, _, rfl⟩
    | some av =>
      dsimp only
      split
      · exact ⟨_, _, rfl⟩
      · exact ⟨_, _, rfl⟩

theorem errs_sub_callValidateFn {α : Type} (arg : α) (st : TaskState)
    (t : Task α) {e : ErrObj} (h : e ∈ st.errs) :
    e ∈ (_callValidateFn arg st t).errs := by
  unfold _callValidateFn
  dsimp only
  cases hre : (t.fn arg t.field t.val).err with
  | none => exact h
  | some e2 => exact List.mem_append_left _ h

theorem errs_sub_runTasks {α : Type} (arg : α) (ts : List (Task α)) :
    ∀ (st : TaskState) {e : ErrObj}, e ∈ st.errs →
      e ∈ (runTasks arg ts st).errs := by
  induction ts with
  | nil => intro st e h; exact h
  | cons t ts ih =>
    intro st e h
    exact ih _ (errs_sub_callValidateFn arg st t h)

theorem task_err_mem_runTasks {α : Type} (arg : α) {ts : List (Task α)}
    {t : Task α} {e : ErrObj} (ht : t ∈ ts)
    (he : (t.fn arg t.field t.val).err = some e) :
    ∀ st : TaskState, e ∈ (runTasks arg ts st).errs := by
  induction ts with
  | nil => exact absurd ht (by simp)
  | cons t2 ts ih =>
    intro st
    rcases List.mem_cons.mp ht with rfl | ht2
    · refine errs_sub_runTasks arg ts _ ?_
      unfold _callValidateFn
      dsimp only
      rw [he]
      exact List.mem_append_right _ (by simp)
    · exact ih ht2 _

theorem net_isIP_cases (s : String) :
    net_isIP s = 0 ∨ net_isIP s = 4 ∨ net_isIP s = 6 := by
  unfold net_isIP
  split
  · exact Or.inr (Or.inl rfl)
  · split
    · exact Or.inr (Or.inr rfl)
    · exact Or.inl rfl

theorem unknowns_foldl {α : Type} (req opt : List (String × Validator α)) :
    ∀ (pf : List (String × JSVal)) (acc : List String),
      pf.foldl
        (fun acc p =>
          if hasOwn req p.1 || hasOwn opt p.1 then acc else acc ++ [p.1])
        acc =
      acc ++ (pf.map Prod.fst).filter
        (fun k => !(hasOwn req k || hasOwn opt k)) := by
  intro pf
  induction pf with
  | nil => intro acc; simp
  | cons p ps ih =>
    intro acc
    simp only [List.foldl_cons, List.map_cons, List.filter_cons]
    by_cases hp : hasOwn req p.1 || hasOwn opt p.1
    · rw [if_pos hp, ih, hp]
      simp
    · rw [if_neg hp, ih, Bool.of_not_eq_true hp]
      simp

/-- C1: every call to validateParams performs exactly one callback
invocation, which carries either a null error together with a validated
result or a non-null error and no result, never both; a non-null error is
either an internal failure or a parameter failure (the structural and
field-error cases both take the latter form). -/
theorem claim1_exactly_one_outcome {α : Type} (opts : Schema α) (arg : α)
    (params : JSVal) :
    ∃ c, (validateParams opts arg params).calls = [c] ∧
      ((c.err = none ∧ ∃ v, c.validated = some v) ∨
        (∃ e, c.err = some e ∧ c.validated = none)) ∧
      (∀ e v, ¬(c.err = some e ∧ c.validated = some v)) ∧
      (∀ e, c.err = some e →
        (∃ w, e = FailObj.internalErr w) ∨
        (∃ m es, e = FailObj.invalidParams m es)) := by
  obtain ⟨E, V, hEV⟩ := validateParams_calls opts arg params
  refine ⟨errResult E V, hEV, ?_, ?_, ?_⟩
  · rcases errResult_shape E V with ⟨h1, h2⟩ | ⟨e, h1, h2⟩
    · exact Or.inl ⟨h1, _, h2⟩
    · exact Or.inr ⟨e, h1, h2⟩
  · rintro e v ⟨h1, h2⟩
    rcases errResult_shape E V with ⟨h3, _⟩ | ⟨e2, _, h4⟩
    · rw [h3] at h1
      exact Option.noConfusion h1
    · rw [h4] at h2
      exact Option.noConfusion h2
  · intro e _
    cases e with
    | internalErr w => exact Or.inl ⟨w, rfl⟩
    | invalidParams m es => exact Or.inr ⟨m, es, rfl⟩

/-- C2: whenever the accumulated list holds an error without a field
property, the outcome is an internal failure with no result, every field
error is dropped, the single fieldless error is wrapped directly when it is
alone, and two or more fieldless errors are wrapped in a multi-error. -/
theorem claim2_internal_precedence (errs : List ErrObj) (v : ValidatedMap)
    (h : ∃ e ∈ errs, e.field = none) :
    (errResult errs v).validated = none ∧
    (∃ w, (errResult errs v).err = some (FailObj.internalErr w)) ∧
    (∀ e, errs.filter (fun e2 => e2.field.isNone) = [e] →
      (errResult errs v).err =
        some (FailObj.internalErr (InternalWrap.single e))) ∧
    (2 ≤ (errs.filter (fun e2 => e2.field.isNone)).length →
      (errResult errs v).err =
        some (FailObj.internalErr
          (InternalWrap.multi (errs.filter (fun e2 => e2.field.isNone))))) := by
  obtain ⟨e0, he0, hf0⟩ := h
  have hne : errs ≠ [] := by
    rintro rfl
    exact absurd he0 (by simp)
  have hmem : e0 ∈ errs.filter (fun e2 => e2.field.isNone) :=
    List.mem_filter.mpr ⟨he0, by simp [hf0]⟩
  have hreal : errs.filter (fun e2 => e2.field.isNone) ≠ [] :=
    List.ne_nil_of_mem hmem
  unfold errResult
  rw [if_neg hne]
  dsimp only
  rw [if_pos hreal]
  refine ⟨rfl, ⟨_, rfl⟩, ?_, ?_⟩
  · intro e hfe
    rw [hfe]
  · intro hlen
    rcases hfil : errs.filter (fun e2 => e2.field.isNone) with _ | ⟨a, _ | ⟨b, t⟩⟩
    · exact absurd hfil hreal
    · rw [hfil] at hlen
      exact absurd hlen (by simp)
    · rw [hfil]

/-- C2 witness: a batch holding one field error and one fieldless error
yields the internal failure wrapping the single fieldless error. -/
theorem claim2_witness :
    (errResult [missingParam "a", { message := some "boom" }]
      ([] : ValidatedMap)).validated = none ∧
    (∃ w, (errResult [missingParam "a", { message := some "boom" }]
      ([] : ValidatedMap)).err = some (FailObj.internalErr w)) ∧
    (∀ e, [missingParam "a", { message := some "boom" }].filter
        (fun e2 => e2.field.isNone) = [e] →
      (errResult [missingParam "a", { message := some "boom" }]
        ([] : ValidatedMap)).err =
        some (FailObj.internalErr (InternalWrap.single e))) ∧
    (2 ≤ ([missingParam "a", { message := some "boom" }].filter
        (fun e2 => e2.field.isNone)).length →
      (errResult [missingParam "a", { message := some "boom" }]
        ([] : ValidatedMap)).err =
        some (FailObj.internalErr (InternalWrap.multi
          ([missingParam "a", { message := some "boom" }].filter
            (fun e2 => e2.field.isNone))))) :=
  claim2_internal_precedence [missingParam "a", { message := some "boom" }] []
    ⟨{ message := some "boom" }, by simp, rfl⟩

/-- C3: a non-empty batch of field errors classifies as the
missing-parameters failure when every code is MissingParameter and as the
generic invalid-parameters failure as soon as any error carries a different
code, in both cases with the full sorted error list. -/
theorem claim3_missing_vs_invalid (errs : List ErrObj) (v : ValidatedMap)
    (hne : errs ≠ []) (hf : ∀ e ∈ errs, e.field.isSome) :
    ((∀ e ∈ errs, e.code = some "MissingParameter") →
      (errResult errs v).err =
        some (FailObj.invalidParams "Missing parameters" (sortByField errs))) ∧
    ((∃ e ∈ errs, ∃ c, e.code = some c ∧ c ≠ "MissingParameter") →
      (errResult errs v).err =
        some (FailObj.invalidParams msg.INVALID_PARAMS (sortByField errs))) := by
  have hreal : errs.filter (fun e2 => e2.field.isNone) = [] := by
    rw [List.filter_eq_nil_iff]
    intro a ha
    rcases Option.isSome_iff_exists.mp (hf a ha) with ⟨x, hx⟩
    simp [hx]
  have hfield : errs.filter (fun e2 => !e2.field.isNone) = errs := by
    rw [List.filter_eq_self]
    intro a ha
    rcases Option.isSome_iff_exists.mp (hf a ha) with ⟨x, hx⟩
    simp [hx]
  unfold errResult
  rw [if_neg hne]
  dsimp only
  rw [if_neg (by simp [hreal]), hfield]
  constructor
  · intro hall
    have hinv :
        (errs.any (fun e =>
          e.code.any (fun c => decide (c ≠ "MissingParameter")))) = false := by
      rw [List.any_eq_false]
      intro e he
      rw [hall e he]
      simp
    rw [hinv]
    rfl
  · rintro ⟨e, he, c, hc, hcne⟩
    have hinv :
        (errs.any (fun e =>
          e.code.any (fun c => decide (c ≠ "MissingParameter")))) = true :=
      List.any_eq_true.mpr ⟨e, he, by rw [hc]; simpa using hcne⟩
    rw [hinv]
    rfl

/-- C3 witness: the classification at a concrete all-missing batch. -/
theorem claim3_witness :
    ((∀ e ∈ [missingParam "b", missingParam "a"],
        e.code = some "MissingParameter") →
      (errResult [missingParam "b", missingParam "a"]
        ([] : ValidatedMap)).err =
        some (FailObj.invalidParams "Missing parameters"
          (sortByField [missingParam "b", missingParam "a"]))) ∧
    ((∃ e ∈ [missingParam "b", missingParam "a"],
        ∃ c, e.code = some c ∧ c ≠ "MissingParameter") →
      (errResult [missingParam "b", missingParam "a"]
        ([] : ValidatedMap)).err =
        some (FailObj.invalidParams msg.INVALID_PARAMS
          (sortByField [missingParam "b", missingParam "a"]))) :=
  claim3_missing_vs_invalid [missingParam "b", missingParam "a"] []
    (by decide) (by decide)

/-- C4: every field-error failure a call produces carries its error list
sorted ascending by the coerced field key, and the list is determined by
the call: any field-error failure observed for the same schema, context and
input carries the same list. -/
theorem claim4_field_errors_sorted {α : Type} (opts : Schema α) (arg : α)
    (params : JSVal) (c : CbCall) (m : String) (es : List ErrObj)
    (hc : (validateParams opts arg params).calls = [c])
    (he : c.err = some (FailObj.invalidParams m es)) :
    es.Sorted fieldLE ∧
    (∀ c2 m2 es2, (validateParams opts arg params).calls = [c2] →
      c2.err = some (FailObj.invalidParams m2 es2) → es2 = es) := by
  obtain ⟨E, V, hEV⟩ := validateParams_calls opts arg params
  rw [hEV] at hc
  obtain ⟨h1, -⟩ := List.cons.inj hc
  rw [← h1] at he
  constructor
  · rw [errResult_invalidParams_list E V m es he]
    exact sorted_sortByField _
  · intro c2 m2 es2 hc2 he2
    rw [hEV] at hc2
    obtain ⟨h2, -⟩ := List.cons.inj hc2
    rw [← h2, he] at he2
    exact (FailObj.invalidParams.inj (Option.some.inj he2)).2.symm

/-- C4 witness: a schema with one missing required field yields a field
failure, whose singleton error list is sorted and determined. -/
theorem claim4_witness :
    ([missingParam "x"].Sorted fieldLE ∧
      (∀ c2 m2 es2,
        (validateParams ({ required := [("x", validateIP)] } : Schema Unit)
          () (JSVal.vobj [])).calls = [c2] →
        c2.err = some (FailObj.invalidParams m2 es2) →
        es2 = [missingParam "x"])) :=
  claim4_field_errors_sorted
    ({ required := [("x", validateIP)] } : Schema Unit) () (JSVal.vobj [])
    { err := some (FailObj.invalidParams "Missing parameters"
        [missingParam "x"]), validated := none }
    "Missing parameters" [missingParam "x"] rfl rfl

/-- C6: a null, non-object or array input makes the call fail at once with
the single structural PARAMETERS_ARE_OBJECTS error and the generic
invalid-parameters message; no validator, unknown-field check or
cross-field stage runs, the schema and input are untouched, and no other
error accompanies it. -/
theorem claim6_structural_exclusive {α : Type} (opts : Schema α) (arg : α)
    (params : JSVal) (h : paramsRejected params = true) :
    validateParams opts arg params =
      { calls := [{ err := some (FailObj.invalidParams msg.INVALID_PARAMS
                        [invalidParam "parameters" msg.PARAMETERS_ARE_OBJECTS]),
                    validated := none }],
        finalOpts := opts, finalParams := params, trace := [] } := by
  unfold validateParams
  rw [if_pos h]
  rfl

/-- C6 witness: the structural failure at the concrete input null. -/
theorem claim6_witness :
    validateParams ({} : Schema Unit) () JSVal.vnull =
      { calls := [{ err := some (FailObj.invalidParams msg.INVALID_PARAMS
                        [invalidParam "parameters" msg.PARAMETERS_ARE_OBJECTS]),
                    validated := none }],
        finalOpts := {}, finalParams := JSVal.vnull, trace := [] } :=
  claim6_structural_exclusive {} () JSVal.vnull rfl

/-- C7: the strict schema requiring ip on input with only hal fails with
exactly the UnknownParameters error for hal and the MissingParameter error
for ip, in that (sorted) order; in general the strict unknown check reports
exactly the input keys that are neither required nor optional, all listed
in one UnknownParameters error. -/
theorem claim7_strict_unknowns :
    ((validateParams
        ({ strict := true, required := [("ip", validateIP)] } : Schema Unit)
        () (JSVal.vobj [("hal", JSVal.vstr "1000")])).calls =
      [{ err := some (FailObj.invalidParams msg.INVALID_PARAMS
            [unknownParams ["hal"], missingParam "ip"]),
          validated := none }]) ∧
    (∀ (α : Type) (pf : List (String × JSVal))
        (req opt : List (String × Validator α)),
      validateUnknowns pf req opt =
        (if ((pf.map Prod.fst).filter
              (fun k => !(hasOwn req k || hasOwn opt k))) = []
         then none
         else some (unknownParams
           ((pf.map Prod.fst).filter
             (fun k => !(hasOwn req k || hasOwn opt k)))))) := by
  constructor
  · rfl
  · intro α pf req opt
    unfold validateUnknowns
    rw [unknowns_foldl req opt pf []]
    simp only [List.nil_append]

/-- C5 counterexample: when a validator reports an error and also supplies
a value, _callValidateFn stores the value in the validated-params mapping
anyway, so the field IS added to the mapping alongside the recorded
error. -/
theorem claim5_counterexample :
    (objGet (_callValidateFn ()
        { errs := [], validatedParams := [], trace := [] }
        { field := "x", fn := errValueValidator,
          val := JSVal.vstr "raw" }).validatedParams "x" =
      some (JSVal.vstr "transformed")) ∧
    ((_callValidateFn ()
        { errs := [], validatedParams := [], trace := [] }
        { field := "x", fn := errValueValidator,
          val := JSVal.vstr "raw" }).errs =
      [invalidParam "x" "bad"]) :=
  ⟨rfl, rfl⟩

/-- C5 amended: the supplied value is written into the internal mapping,
but an error reported by any invoked validator forces the call to fail, so
no validated result (and in particular no such field value) is ever
delivered to the callback. -/
theorem claim5_error_prevents_delivery {α : Type} (opts : Schema α)
    (arg : α) (params : JSVal)
    (h : ∃ t ∈ toValidateList opts params,
      ((t.fn arg t.field t.val).err).isSome) :
    ∃ e, (validateParams opts arg params).calls =
      [{ err := some e, validated := none }] := by
  obtain ⟨t, ht, he⟩ := h
  rcases Option.isSome_iff_exists.mp he with ⟨e0, he0⟩
  by_cases hrej : paramsRejected params = true
  · refine ⟨FailObj.invalidParams msg.INVALID_PARAMS
      [invalidParam "parameters" msg.PARAMETERS_ARE_OBJECTS], ?_⟩
    unfold validateParams
    rw [if_pos hrej]
    rfl
  · have hmem : e0 ∈ (passState opts arg params).errs :=
      task_err_mem_runTasks arg ht he0 _
    have hcol : collectedErrs opts arg params ≠ [] := by
      unfold collectedErrs
      intro hnil
      rcases List.append_eq_nil.mp hnil with ⟨h1, -⟩
      rw [h1] at hmem
      exact absurd hmem (by simp)
    unfold validateParams
    rw [if_neg hrej]
    dsimp only
    cases hA : opts.after with
    | none =>
      obtain ⟨e, hre⟩ := errResult_nonempty_fail (collectedErrs opts arg params)
        (passState opts arg params).validatedParams hcol
      exact ⟨e, by rw [hre]⟩
    | some av =>
      dsimp only
      rw [if_neg hcol]
      obtain ⟨e, hre⟩ := errResult_nonempty_fail (collectedErrs opts arg params)
        (passState opts arg params).validatedParams hcol
      exact ⟨e, by rw [hre]⟩

/-- C5 witness: the amended theorem at the error-and-value validator. -/
theorem claim5_witness :
    ∃ e, (validateParams errValueSchema ()
        (JSVal.vobj [("x", JSVal.vstr "raw")])).calls =
      [{ err := some e, validated := none }] :=
  claim5_error_prevents_delivery errValueSchema ()
    (JSVal.vobj [("x", JSVal.vstr "raw")])
    ⟨{ field := "x", fn := errValueValidator, val := JSVal.vstr "raw" },
      List.mem_singleton.mpr rfl, rfl⟩

/-- C9 counterexample: a schema whose after member is a single function is
mutated by a clean call, which replaces after with a one-element array, so
the schema object is not left unchanged. -/
theorem claim9_counterexample :
    (validateParams singleAfterSchema () (JSVal.vobj [])).finalOpts.after =
      some (AfterVal.list [noopAfterFn]) ∧
    singleAfterSchema.after = some (AfterVal.single noopAfterFn) ∧
    (validateParams singleAfterSchema () (JSVal.vobj [])).finalOpts ≠
      singleAfterSchema := by
  refine ⟨rfl, rfl, fun h => ?_⟩
  exact AfterVal.noConfusion (Option.some.inj (congrArg Schema.after h))

/-- C9 amended: validateParams never mutates the input object, and leaves
the schema unchanged except that a call that reaches a clean cross-field
stage rewrites a bare-function after member into the one-element array
holding that function; strict, required and optional are always
untouched. -/
theorem claim9_no_mutation_except_after {α : Type} (opts : Schema α)
    (arg : α) (params : JSVal) :
    (validateParams opts arg params).finalParams = params ∧
    (validateParams opts arg params).finalOpts.strict = opts.strict ∧
    (validateParams opts arg params).finalOpts.required = opts.required ∧
    (validateParams opts arg params).finalOpts.optional = opts.optional ∧
    ((validateParams opts arg params).finalOpts.after = opts.after ∨
      ∃ f, opts.after = some (AfterVal.single f) ∧
        (validateParams opts arg params).finalOpts.after =
          some (AfterVal.list [f])) := by
  unfold validateParams
  split
  · exact ⟨rfl, rfl, rfl, rfl, Or.inl rfl⟩
  · dsimp only
    cases hA : opts.after with
    | none => exact ⟨rfl, rfl, rfl, rfl, Or.inl hA⟩
    | some av =>
      dsimp only
      cases av with
      | single f =>
        dsimp only
        by_cases hc : collectedErrs opts arg params = []
        · rw [if_pos hc]
          exact ⟨rfl, rfl, rfl, rfl, Or.inr ⟨f, rfl, rfl⟩⟩
        · rw [if_neg hc]
          exact ⟨rfl, rfl, rfl, rfl, Or.inl hA⟩
      | list fs =>
        dsimp only
        by_cases hc : collectedErrs opts arg params = []
        · rw [if_pos hc]
          exact ⟨rfl, rfl, rfl, rfl, Or.inl hA⟩
        · rw [if_neg hc]
          exact ⟨rfl, rfl, rfl, rfl, Or.inl hA⟩

/-- C8: evaluation of the offset and limit validators at non-integral
number inputs.  Because the isNotInteger guard runs only for non-number
values, the number one-half passes validateOffset and five-halves passes
validateLimit, contradicting both the claim and the source comment that
limits and offsets must be integers. -/
theorem claim8_nonintegral_number_accepted :
    validateOffset "offset" (NumOrStr.num (JSNum.val (mkRat 1 2))) =
      Except.ok (JSNum.val (mkRat 1 2)) ∧
    validateLimit "limit" (NumOrStr.num (JSNum.val (mkRat 5 2))) =
      Except.ok (JSNum.val (mkRat 5 2)) ∧
    validateOffset "offset" (NumOrStr.str "0.5") =
      Except.error (invalidParam "offset" msg.OFFSET) :=
  ⟨rfl, rfl, rfl⟩

/-- C10: whenever the IP-array validator succeeds, the value it returns is
the list of net.isIP address-family codes of the (whitespace-stripped)
entries, each of which is 4 or 6, and not the entry strings themselves. -/
theorem claim10_iparray_returns_codes (name : String) (arr : ArrOrStr)
    (ips : List ℕ) (h : validateIParray name arr = Except.ok ips) :
    ips = (arrayify arr).map (fun i => net_isIP (stripFirstWs i)) ∧
    ∀ c ∈ ips, c = 4 ∨ c = 6 := by
  unfold validateIParray at h
  dsimp only at h
  by_cases harr : arrayify arr = []
  · rw [if_pos harr] at h
    rw [if_pos (by simp)] at h
    exact absurd h (by simp)
  · rw [if_neg harr] at h
    split at h
    · exact absurd h (by simp)
    · rename_i hcond
      have hfilnil :
          (((arrayify arr).map (fun i =>
            (stripFirstWs i, net_isIP (stripFirstWs i)))).filter
              (fun p => p.2 = 0)) = [] := by
        have h1 := not_not.mp hcond
        exact List.map_eq_nil_iff.mp h1
      have hall : ∀ p ∈ ((arrayify arr).map (fun i =>
          (stripFirstWs i, net_isIP (stripFirstWs i)))), ¬(p.2 = 0) := by
        rw [List.filter_eq_nil_iff] at hfilnil
        intro p hp
        simpa using hfilnil p hp
      have hfull :
          (((arrayify arr).map (fun i =>
            (stripFirstWs i, net_isIP (stripFirstWs i)))).filter
              (fun p => p.2 ≠ 0)) =
          ((arrayify arr).map (fun i =>
            (stripFirstWs i, net_isIP (stripFirstWs i)))) :=
        List.filter_eq_self.mpr (fun p hp => by simpa using hall p hp)
      rw [hfull] at h
      have hips : ips = (arrayify arr).map
          (fun i => net_isIP (stripFirstWs i)) := by
        have h2 := Except.ok.inj h
        rw [← h2, List.map_map]
        rfl
      refine ⟨hips, ?_⟩
      intro c hc
      rw [hips] at hc
      rcases List.mem_map.mp hc with ⟨i, hi, hci⟩
      have hmem : (stripFirstWs i, net_isIP (stripFirstWs i)) ∈
          ((arrayify arr).map (fun i =>
            (stripFirstWs i, net_isIP (stripFirstWs i)))) :=
        List.mem_map.mpr ⟨i, hi, rfl⟩
      have hne := hall _ hmem
      rcases net_isIP_cases (stripFirstWs i) with h0 | h4 | h6
      · exact absurd h0 (by simpa using hne)
      · exact Or.inl (by rw [← hci]; exact h4)
      · exact Or.inr (by rw [← hci]; exact h6)

/-- C10 witness: the IP-array validator on two valid addresses returns the
family codes 4 and 6. -/
theorem claim10_witness :
    [4, 6] = (arrayify (ArrOrStr.ofArr ["8.8.8.8", "::1"])).map
      (fun i => net_isIP (stripFirstWs i)) ∧
    ∀ c ∈ [4, 6], c = 4 ∨ c = 6 :=
  claim10_iparray_returns_codes "ip" (ArrOrStr.ofArr ["8.8.8.8", "::1"])
    [4, 6] rfl

end RestifyWarden
